import Mathlib

/-!
Shallow embedding of kopf's per-object memory container
(src/kopf/structs/containers.py) and of the daemon termination
escalation protocol described in the accompanying design document
(the protocol's own source file is not among the provided sources;
only its test suite is, so the protocol is modelled from the spec
and cross-checked against the observable behaviour the tests pin
down).

Modelling conventions:
- Python dicts become association lists with unique keys; insertion
  keeps order, replacement keeps position (as CPython does).
- Exceptions become `Except PyErr` results.
- Monotonic timestamps and durations become `Nat` seconds.
- Asyncio tasks are represented by their non-blocking observable:
  a `taskDone` flag.
-/

namespace Kopf

/-- Kinds of Python mapping failures raised by the code under study. -/
inductive PyErr where
  | keyError (key : String)
  | attributeError (msg : String)
deriving DecidableEq

/-- The class of a Python exception, disregarding its message. -/
inductive PyErrKind where
  | keyErr
  | attrErr
deriving DecidableEq

/-- Classify a `PyErr` by its exception class. -/
def PyErr.kind : PyErr → PyErrKind
  | .keyError _ => .keyErr
  | .attributeError _ => .attrErr

/-- The exception class with which a computation failed, if it failed. -/
def failureKind {α : Type} : Except PyErr α → Option PyErrKind
  | .ok _ => none
  | .error e => some e.kind

/-- Association-list lookup: the value bound to `k`, scanning left to right
(the semantics of a Python dict read, given unique keys). -/
def lookupA {α : Type} (k : String) : List (String × α) → Option α
  | [] => none
  | (k', v) :: rest => if k' = k then some v else lookupA k rest

/-- Association-list write: replace the binding of `k` in place if present,
append it otherwise (the semantics of a Python dict write). -/
def insertA {α : Type} (k : String) (v : α) : List (String × α) → List (String × α)
  | [] => [(k, v)]
  | (k', v') :: rest => if k' = k then (k, v) :: rest else (k', v') :: insertA k v rest

/-- Association-list delete: drop the binding of `k` if present
(the semantics of a Python dict delete, given unique keys). -/
def removeA {α : Type} (k : String) : List (String × α) → List (String × α)
  | [] => []
  | (k', v') :: rest => if k' = k then rest else (k', v') :: removeA k rest

/-- The keys of an association list, in storage order. -/
def keysOf {α : Type} (l : List (String × α)) : List String :=
  l.map Prod.fst

/-- Well-formedness of a modelled Python dict: every key bound at most once. -/
def NodupKeys {α : Type} (l : List (String × α)) : Prop :=
  (keysOf l).Nodup

/-- `Memo` (containers.py): a dict subclass holding arbitrary user keys,
with attribute access delegating to subscript access.  The backing
storage is one association list, shared by both access surfaces. -/
structure Memo (α : Type) where
  entries : List (String × α)
deriving DecidableEq

/-- `memo[key]` — plain dict read: `KeyError` when the key is missing. -/
def Memo.getItem {α : Type} (m : Memo α) (k : String) : Except PyErr α :=
  match lookupA k m.entries with
  | some v => .ok v
  | none => .error (.keyError k)

/-- `memo[key] = value` — plain dict write. -/
def Memo.setItem {α : Type} (m : Memo α) (k : String) (v : α) : Memo α :=
  ⟨insertA k v m.entries⟩

/-- `del memo[key]` — plain dict delete: `KeyError` when the key is missing. -/
def Memo.delItem {α : Type} (m : Memo α) (k : String) : Except PyErr (Memo α) :=
  match lookupA k m.entries with
  | some _ => .ok ⟨removeA k m.entries⟩
  | none => .error (.keyError k)

/-- `Memo.__setattr__`: `self[key] = value`. -/
def Memo.setAttr {α : Type} (m : Memo α) (k : String) (v : α) : Memo α :=
  m.setItem k v

/-- `Memo.__getattr__`: `self[key]`, converting `KeyError` into
`AttributeError` carrying the stringified original error. -/
def Memo.getAttr {α : Type} (m : Memo α) (k : String) : Except PyErr α :=
  match m.getItem k with
  | .ok v => .ok v
  | .error (.keyError key) => .error (.attributeError key)
  | .error e => .error e

/-- `Memo.__delattr__`: `del self[key]`, converting `KeyError` into
`AttributeError` carrying the stringified original error. -/
def Memo.delAttr {α : Type} (m : Memo α) (k : String) : Except PyErr (Memo α) :=
  match m.delItem k with
  | .ok m' => .ok m'
  | .error (.keyError key) => .error (.attributeError key)
  | .error e => .error e

/-- The `metadata` section of a raw Kubernetes body, reduced to the one
field the container consults. -/
structure Metadata where
  uid : Option String
deriving DecidableEq

/-- A raw object body, reduced to the fields the container consults. -/
structure RawBody where
  metadata : Option Metadata
deriving DecidableEq

/-- Python `x or ''` on an optional string: the string when present and
non-empty (truthy), the empty string otherwise. -/
def pyOrEmpty : Option String → String
  | none => ""
  | some s => if s = "" then "" else s

/-- `ResourceMemories._build_key`: the uid out of the metadata, with both
`.get` steps defaulting, then `or ''`. -/
def buildKey (rb : RawBody) : String :=
  pyOrEmpty (match rb.metadata with
             | none => none
             | some md => md.uid)

/-- `DaemonStopper` (primitives.py, not among the provided sources).
Modelled from the spec: a one-shot stop signal holding the monotonic
time it was set (`none` while unset) and the once-settable marker that
forceful cancellation has already been issued. -/
structure DaemonStopper where
  setAt : Option Nat
  cancelIssued : Bool
deriving DecidableEq

/-- `ResourceSpawningHandler` (handlers.py, not among the provided sources).
Modelled from the spec: the daemon handler metadata the escalation
protocol consults — its identifier and the configured optional
cancellation backoff and cancellation timeout durations. -/
structure SpawningHandler where
  id : String
  cancellation_backoff : Option Nat
  cancellation_timeout : Option Nat
deriving DecidableEq

/-- `Daemon` (containers.py): the handle coupling the background task
(represented by its non-blocking done-observable), the handler metadata
and the stop signal.  The logger carries no observable state and is
elided. -/
structure Daemon where
  taskDone : Bool
  handler : SpawningHandler
  stopper : DaemonStopper
deriving DecidableEq

/-- `ResourceMemory` (containers.py): the mutable per-object state bag. -/
structure ResourceMemory where
  memo : Memo String
  noticed_by_listing : Bool
  fully_handled_once : Bool
  live_fresh_body : Option RawBody
  idle_reset_time : Nat
  forever_stopped : List String
  daemons : List (String × Daemon)
deriving DecidableEq

/-- A freshly constructed `ResourceMemory(noticed_by_listing=nbl)`: every
other field takes its dataclass default, with `idle_reset_time` set from
the current monotonic clock. -/
def freshMemory (nbl : Bool) (now : Nat) : ResourceMemory :=
  ⟨⟨[]⟩, nbl, false, none, now, [], []⟩

/-- `ResourceMemories` (containers.py): the keyed store of memory records. -/
structure ResourceMemories where
  items : List (String × ResourceMemory)
deriving DecidableEq

/-- `ResourceMemories.recall`: get-or-create.  If no record exists for the
payload's key, create one with the given `noticed_by_listing` and insert
it; return the stored record together with the updated container.  The
check and the insert happen with no suspension in between. -/
def ResourceMemories.recall (ms : ResourceMemories) (rb : RawBody)
    (nbl : Bool) (now : Nat) : ResourceMemories × ResourceMemory :=
  let key := buildKey rb
  match lookupA key ms.items with
  | some r => (ms, r)
  | none =>
      let r := freshMemory nbl now
      (⟨insertA key r ms.items⟩, r)

/-- `ResourceMemories.forget`: remove the record for the payload's key if
present; a no-op otherwise. -/
def ResourceMemories.forget (ms : ResourceMemories) (rb : RawBody) : ResourceMemories :=
  ⟨removeA (buildKey rb) ms.items⟩

/-- `ResourceMemories.iter_all_memories`: yield every stored record, in
storage order.  The model is a pure list, so the traversal is finite and
each call restarts from the beginning without consuming anything. -/
def ResourceMemories.iter_all_memories (ms : ResourceMemories) : List ResourceMemory :=
  ms.items.map Prod.snd

/-- One externally invokable container operation, for stating invariants
over every reachable container state. -/
inductive MemOp where
  | recallOp (rb : RawBody) (nbl : Bool) (now : Nat)
  | forgetOp (rb : RawBody)

/-- Apply one container operation, discarding `recall`'s returned record. -/
def applyOp (ms : ResourceMemories) : MemOp → ResourceMemories
  | .recallOp rb nbl now => (ms.recall rb nbl now).1
  | .forgetOp rb => ms.forget rb

/-- Run a sequence of container operations from the empty container. -/
def runOps (ops : List MemOp) : ResourceMemories :=
  ops.foldl applyOp ⟨[]⟩

/-- How many records the container holds under the given identity key. -/
def countKey (ms : ResourceMemories) (k : String) : Nat :=
  (keysOf ms.items).count k

/-- Modelled from the spec: the warning-level log line naming the daemon,
emitted once on abandonment ("Daemon ... did not exit in time. Leaving it
orphaned.", as the test suite asserts). -/
def orphanedWarning (daemonId : String) : String :=
  "Daemon " ++ daemonId ++ " did not exit in time. Leaving it orphaned."

/-- Modelled from the spec: the elapsed time since forceful cancellation,
recomputed (as the design note requires) from the stop-signal time alone —
cancellation is deemed to have been issued when the grace backoff elapsed
(immediately on signalling when no backoff is configured). -/
def sinceCancellation (d : Daemon) (now : Nat) : Nat :=
  (now - d.stopper.setAt.getD now) - d.handler.cancellation_backoff.getD 0

/-- Modelled from the spec: the overdue test — the cancellation timeout is
configured and the elapsed time since cancellation exceeds it. -/
def overdue (d : Daemon) (now : Nat) : Bool :=
  match d.handler.cancellation_timeout with
  | none => false
  | some t => decide (t < sinceCancellation d now)

/-- The per-daemon outcome of one invocation of the escalation protocol:
whether a suspension was performed (and with which deadline, `some none`
being a wait with no deadline), whether forceful cancellation was issued,
the warning logged if any, whether a "stopping" status update was emitted,
and whether finalizer removal was reported safe. -/
structure StepOut where
  wait : Option (Option Nat)
  cancelled : Bool
  warning : Option String
  statusPatch : Bool
  finalizerSafe : Bool
deriving DecidableEq

/-- Modelled from the spec: one invocation of the termination escalation
protocol for a single daemon handle (spec section 4.3, whose source file
is not among the provided sources).  Step 1 sets the stop signal if
unset; step 2 reports a completed task as fully stopped (returning `none`
for the handle: it is removed from the record); otherwise the grace /
cancelled / overdue phases decide the wait, the cancellation and the
patch.  A pass where cancellation was already issued earlier and the
timeout has not yet expired re-waits for the timeout with a status
update; once it has expired the daemon is abandoned with a single
warning and no wait. -/
def stopDaemonStep (d0 : Daemon) (now : Nat) : Option Daemon × StepOut :=
  let t0 := d0.stopper.setAt.getD now
  let d : Daemon := { d0 with stopper := { d0.stopper with setAt := some t0 } }
  if d.taskDone then
    (none, ⟨none, false, none, false, true⟩)
  else
    let elapsed := now - t0
    if d.stopper.cancelIssued then
      match d.handler.cancellation_timeout with
      | none => (some d, ⟨some none, false, none, true, false⟩)
      | some t =>
        if t < sinceCancellation d now then
          (none, ⟨none, false, some (orphanedWarning d.handler.id), false, true⟩)
        else
          (some d, ⟨some (some t), false, none, true, false⟩)
    else
      match d.handler.cancellation_backoff with
      | none =>
        match d.handler.cancellation_timeout with
        | none => (some d, ⟨some none, false, none, false, false⟩)
        | some t =>
          let d' : Daemon := { d with stopper := { d.stopper with cancelIssued := true } }
          (some d', ⟨some (some t), true, none, true, false⟩)
      | some b =>
        if elapsed < b then
          (some d, ⟨some (some (b - elapsed)), false, none, true, false⟩)
        else
          let d' : Daemon := { d with stopper := { d.stopper with cancelIssued := true } }
          (some d', ⟨some d.handler.cancellation_timeout, true, none, true, false⟩)

/-- The record-level termination state the protocol acts on: the daemon
handle still held by the memory record (at most one in the scenarios the
claims describe) and the permanently-stopped identifiers. -/
structure TermState where
  daemon : Option Daemon
  forever_stopped : List String
deriving DecidableEq

/-- The patch instruction a reconciliation pass emits, if any. -/
inductive PatchK where
  | statusStopping
  | finalizerRemoval
deriving DecidableEq

/-- The observable outcome of one reconciliation pass over a record's
daemons: the suspensions performed, the number of forceful cancellations
issued, the warnings logged, and the patch instruction emitted. -/
structure PassOut where
  waits : List (Option Nat)
  cancels : Nat
  warnings : List String
  patch : Option PatchK
deriving DecidableEq

/-- Modelled from the spec: one reconciliation pass of the termination
protocol over a record (spec `driveTermination`).  With no daemon left,
deletion is unblocked: the pass emits the finalizer-removal patch and
nothing else.  With a daemon, the per-daemon step decides; a stopped or
abandoned daemon moves its identifier into the permanently-stopped set
and unblocks the finalizer. -/
def driveTermination (st : TermState) (now : Nat) : TermState × PassOut :=
  match st.daemon with
  | none => (st, ⟨[], 0, [], some .finalizerRemoval⟩)
  | some d =>
    let s := stopDaemonStep d now
    let st' : TermState :=
      ⟨s.1, if s.1.isNone then st.forever_stopped ++ [d.handler.id] else st.forever_stopped⟩
    (st', ⟨s.2.wait.toList,
           if s.2.cancelled then 1 else 0,
           s.2.warning.toList,
           if s.2.finalizerSafe then some .finalizerRemoval
           else if s.2.statusPatch then some .statusStopping else none⟩)

/-- The daemon's background task has actually exited: the non-blocking
done-observable of the record's task flips to true. -/
def markTaskDone (st : TermState) : TermState :=
  ⟨st.daemon.map (fun d => { d with taskDone := true }), st.forever_stopped⟩

/-- The two consecutive invocations of the escalation protocol on the same
observed moment: the outcome of the first pass and of its immediate
re-invocation with the same clock reading. -/
def reinvoke (st : TermState) (now : Nat) : PassOut × PassOut :=
  let p1 := driveTermination st now
  let p2 := driveTermination p1.1 now
  (p1.2, p2.2)

/-- The three reconciliation passes of the backoff-then-cancellation
scenario: a daemon with cancellation backoff 5 and cancellation timeout
10, stop-signalled on the first pass at `t0`, re-examined at `t1`, and
examined once more at `t2` after its task has actually exited. -/
def threePass (daemonId : String) (t0 t1 t2 : Nat) : PassOut × PassOut × PassOut :=
  let d0 : Daemon := ⟨false, ⟨daemonId, some 5, some 10⟩, ⟨none, false⟩⟩
  let p1 := driveTermination ⟨some d0, []⟩ t0
  let p2 := driveTermination p1.1 t1
  let p3 := driveTermination (markTaskDone p2.1) t2
  (p1.2, p2.2, p3.2)

theorem lookupA_insertA_self {α : Type} (k : String) (v : α) (l : List (String × α)) :
    lookupA k (insertA k v l) = some v := by
  induction l with
  | nil => simp [insertA, lookupA]
  | cons hd tl ih =>
    obtain ⟨k', v'⟩ := hd
    by_cases h : k' = k
    · simp [insertA, h, lookupA]
    · simp [insertA, h, lookupA, ih]

theorem lookupA_eq_none_of_not_mem {α : Type} {k : String} {l : List (String × α)}
    (h : k ∉ keysOf l) : lookupA k l = none := by
  induction l with
  | nil => simp [lookupA]
  | cons hd tl ih =>
    obtain ⟨k', v'⟩ := hd
    simp only [keysOf, List.map_cons, List.mem_cons] at h
    push_neg at h
    obtain ⟨h1, h2⟩ := h
    rw [lookupA, if_neg (fun he => h1 he.symm)]
    exact ih h2

theorem mem_keysOf_insertA {α : Type} {x k : String} {v : α} {l : List (String × α)}
    (h : x ∈ keysOf (insertA k v l)) : x = k ∨ x ∈ keysOf l := by
  induction l with
  | nil =>
    simp only [insertA, keysOf, List.map_cons, List.map_nil, List.mem_cons,
      List.not_mem_nil, or_false] at h
    exact Or.inl h
  | cons hd tl ih =>
    obtain ⟨k', v'⟩ := hd
    by_cases hk : k' = k
    · simp only [insertA, if_pos hk, keysOf, List.map_cons, List.mem_cons] at h
      rcases h with h | h
      · exact Or.inl h
      · exact Or.inr (by rw [keysOf, List.map_cons]; exact List.mem_cons_of_mem _ h)
    · simp only [insertA, if_neg hk, keysOf, List.map_cons, List.mem_cons] at h
      rcases h with h | h
      · exact Or.inr (by rw [keysOf, List.map_cons]; exact h ▸ List.mem_cons_self _ _)
      · rcases ih h with h' | h'
        · exact Or.inl h'
        · exact Or.inr (by rw [keysOf, List.map_cons]; exact List.mem_cons_of_mem _ h')

theorem nodupKeys_insertA {α : Type} (k : String) (v : α) {l : List (String × α)}
    (h : NodupKeys l) : NodupKeys (insertA k v l) := by
  induction l with
  | nil =>
    simp only [insertA, NodupKeys, keysOf, List.map_cons, List.map_nil]
    exact List.nodup_singleton k
  | cons hd tl ih =>
    obtain ⟨k', v'⟩ := hd
    simp only [NodupKeys, keysOf, List.map_cons, List.nodup_cons] at h
    obtain ⟨hnot, hn⟩ := h
    have hntl : NodupKeys tl := hn
    by_cases hk : k' = k
    · subst hk
      simp only [insertA, eq_self_iff_true, if_true, NodupKeys, keysOf,
        List.map_cons, List.nodup_cons]
      exact ⟨hnot, hn⟩
    · simp only [insertA, if_neg hk, NodupKeys, keysOf, List.map_cons, List.nodup_cons]
      refine ⟨?_, ih hntl⟩
      intro hmem
      rcases mem_keysOf_insertA hmem with h' | h'
      · exact hk h'
      · exact hnot h'

theorem keysOf_removeA_sublist {α : Type} (k : String) (l : List (String × α)) :
    (keysOf (removeA k l)).Sublist (keysOf l) := by
  induction l with
  | nil => simp [removeA, keysOf]
  | cons hd tl ih =>
    obtain ⟨k', v'⟩ := hd
    by_cases hk : k' = k
    · simp only [removeA, if_pos hk, keysOf, List.map_cons]
      exact List.sublist_cons_self k' _
    · simp only [removeA, if_neg hk, keysOf, List.map_cons]
      exact ih.cons₂ k'

theorem nodupKeys_removeA {α : Type} (k : String) {l : List (String × α)}
    (h : NodupKeys l) : NodupKeys (removeA k l) :=
  (keysOf_removeA_sublist k l).nodup h

theorem lookupA_removeA_self {α : Type} (k : String) {l : List (String × α)}
    (h : NodupKeys l) : lookupA k (removeA k l) = none := by
  induction l with
  | nil => simp [removeA, lookupA]
  | cons hd tl ih =>
    obtain ⟨k', v'⟩ := hd
    simp only [NodupKeys, keysOf, List.map_cons, List.nodup_cons] at h
    obtain ⟨hnot, hn⟩ := h
    by_cases hk : k' = k
    · subst hk
      simp only [removeA, if_pos rfl]
      exact lookupA_eq_none_of_not_mem hnot
    · simp only [removeA, if_neg hk]
      rw [lookupA, if_neg hk]
      exact ih hn

theorem mem_snd_of_lookupA {α : Type} {k : String} {r : α} {l : List (String × α)}
    (h : lookupA k l = some r) : r ∈ l.map Prod.snd := by
  induction l with
  | nil => simp [lookupA] at h
  | cons hd tl ih =>
    obtain ⟨k', v'⟩ := hd
    by_cases hk : k' = k
    · simp [lookupA, hk] at h
      simp [h]
    · simp [lookupA, hk] at h
      simp [ih h]

theorem nodupKeys_applyOp (ms : ResourceMemories) (op : MemOp)
    (h : NodupKeys ms.items) : NodupKeys (applyOp ms op).items := by
  cases op with
  | recallOp rb nbl now =>
    cases hl : lookupA (buildKey rb) ms.items with
    | some r => simpa [applyOp, ResourceMemories.recall, hl] using h
    | none =>
      simpa [applyOp, ResourceMemories.recall, hl] using
        nodupKeys_insertA (buildKey rb) (freshMemory nbl now) h
  | forgetOp rb => exact nodupKeys_removeA _ h

theorem nodupKeys_runOps (ops : List MemOp) : NodupKeys (runOps ops).items := by
  suffices h : ∀ ms : ResourceMemories, NodupKeys ms.items →
      NodupKeys (ops.foldl applyOp ms).items by
    exact h ⟨[]⟩ (by simp [NodupKeys, keysOf])
  induction ops with
  | nil => intro ms h; simpa using h
  | cons op rest ih => intro ms h; exact ih _ (nodupKeys_applyOp ms op h)

theorem lookupA_after_recall (ms : ResourceMemories) (rb : RawBody) (nbl : Bool) (now : Nat) :
    lookupA (buildKey rb) ((ms.recall rb nbl now).1).items
      = some ((ms.recall rb nbl now).2) := by
  cases hl : lookupA (buildKey rb) ms.items with
  | some r => simp [ResourceMemories.recall, hl]
  | none => simp [ResourceMemories.recall, hl, lookupA_insertA_self]

/-- C1: over every sequence of recall and forget operations started from the
empty container, at most one memory record exists per identity key; and a
second consecutive recall with the same payload (no intervening forget)
returns the very record and container the first recall produced — nothing
new is created. -/
theorem claim1_at_most_one_record_per_key (ops : List MemOp) (k : String)
    (ms : ResourceMemories) (rb : RawBody) (nbl nbl' : Bool) (now now' : Nat) :
    countKey (runOps ops) k ≤ 1
    ∧ (ms.recall rb nbl now).1.recall rb nbl' now' = ms.recall rb nbl now := by
  constructor
  · exact List.nodup_iff_count_le_one.mp (nodupKeys_runOps ops) k
  · cases hl : lookupA (buildKey rb) ms.items with
    | some r => simp [ResourceMemories.recall, hl]
    | none => simp [ResourceMemories.recall, hl, lookupA_insertA_self]

/-- C10: for an identity that already has a record, `recall` returns that
record with no field modified and leaves the container untouched: the
`noticed_by_listing` argument is ignored and the last-seen payload is not
updated. -/
theorem claim10_recall_existing_returns_unchanged (ms : ResourceMemories) (rb : RawBody)
    (nbl : Bool) (now : Nat) (r : ResourceMemory)
    (h : lookupA (buildKey rb) ms.items = some r) :
    ms.recall rb nbl now = (ms, r) := by
  simp [ResourceMemories.recall, h]

/-- C10 witness: a stored record with every bookkeeping field non-default is
returned unchanged by a later `recall` carrying a different
`noticed_by_listing` argument. -/
theorem claim10_recall_existing_witness :
    (ResourceMemories.mk
        [("u1", ⟨⟨[("a", "b")]⟩, true, true, some ⟨some ⟨some "u1"⟩⟩, 3, ["h1"], []⟩)]).recall
        ⟨some ⟨some "u1"⟩⟩ false 99
      = (⟨[("u1", ⟨⟨[("a", "b")]⟩, true, true, some ⟨some ⟨some "u1"⟩⟩, 3, ["h1"], []⟩)]⟩,
         ⟨⟨[("a", "b")]⟩, true, true, some ⟨some ⟨some "u1"⟩⟩, 3, ["h1"], []⟩) :=
  claim10_recall_existing_returns_unchanged _ _ _ _ _ (by decide)

/-- C5: `forget` followed by `recall` on the same payload yields a fresh
record with reset bookkeeping: `noticed_by_listing` as passed to `recall`,
`fully_handled_once` false, empty permanently-stopped set, no daemon
handles, empty user data and no last-seen payload — and in particular not
a record that previously carried non-default bookkeeping. -/
theorem claim5_forget_then_recall_resets (ms : ResourceMemories) (rb : RawBody)
    (nbl : Bool) (now : Nat) (hwf : NodupKeys ms.items) :
    ((ms.forget rb).recall rb nbl now).2.noticed_by_listing = nbl
    ∧ ((ms.forget rb).recall rb nbl now).2.fully_handled_once = false
    ∧ ((ms.forget rb).recall rb nbl now).2.forever_stopped = []
    ∧ ((ms.forget rb).recall rb nbl now).2.daemons = []
    ∧ ((ms.forget rb).recall rb nbl now).2.memo.entries = []
    ∧ ((ms.forget rb).recall rb nbl now).2.live_fresh_body = none
    ∧ ∀ rOld, lookupA (buildKey rb) ms.items = some rOld →
        rOld.fully_handled_once = true → ((ms.forget rb).recall rb nbl now).2 ≠ rOld := by
  have hnone : lookupA (buildKey rb) (ms.forget rb).items = none :=
    lookupA_removeA_self _ hwf
  have hres : ((ms.forget rb).recall rb nbl now).2 = freshMemory nbl now := by
    simp [ResourceMemories.recall, hnone]
  rw [hres]
  refine ⟨rfl, rfl, rfl, rfl, rfl, rfl, ?_⟩
  intro rOld _ hfho heq
  rw [← heq] at hfho
  simp [freshMemory] at hfho

/-- C5 witness: forgetting a payload whose record was fully handled once and
recalling it with `noticed_by_listing := true` yields a reset record that
differs from the old one. -/
theorem claim5_forget_then_recall_witness :
    (((ResourceMemories.mk [("u1", ⟨⟨[]⟩, false, true, none, 0, [], []⟩)]).forget
        ⟨some ⟨some "u1"⟩⟩).recall ⟨some ⟨some "u1"⟩⟩ true 7).2.noticed_by_listing = true
    ∧ (((ResourceMemories.mk [("u1", ⟨⟨[]⟩, false, true, none, 0, [], []⟩)]).forget
        ⟨some ⟨some "u1"⟩⟩).recall ⟨some ⟨some "u1"⟩⟩ true 7).2
        ≠ (⟨⟨[]⟩, false, true, none, 0, [], []⟩ : ResourceMemory) := by
  have h := claim5_forget_then_recall_resets
    (ResourceMemories.mk [("u1", ⟨⟨[]⟩, false, true, none, 0, [], []⟩)])
    ⟨some ⟨some "u1"⟩⟩ true 7 (by simp [NodupKeys, keysOf])
  exact ⟨h.1, h.2.2.2.2.2.2 _ (by decide) rfl⟩

/-- C8: identity extraction returns the empty string whenever the uid is
unavailable in the payload, and returns exactly the uid whenever it is
present; being a pure function of the payload, it is stable across calls
within one process. -/
theorem claim8_identity_extraction (rb : RawBody) :
    (rb.metadata.bind Metadata.uid = none → buildKey rb = "")
    ∧ ∀ u, rb.metadata.bind Metadata.uid = some u → buildKey rb = u := by
  constructor
  · intro h
    cases hm : rb.metadata with
    | none => simp [buildKey, hm, pyOrEmpty]
    | some md =>
      cases hu : md.uid with
      | none => simp [buildKey, hm, hu, pyOrEmpty]
      | some u => rw [hm] at h; simp [hu] at h
  · intro u h
    cases hm : rb.metadata with
    | none => rw [hm] at h; simp at h
    | some md =>
      cases hu : md.uid with
      | none => rw [hm] at h; simp [hu] at h
      | some u' =>
        rw [hm] at h
        simp [hu] at h
        subst h
        simp only [buildKey, hm, hu, pyOrEmpty]
        by_cases he : u' = "" <;> simp [he]

/-- C8 witness: a payload with uid present yields that uid; a payload with
no metadata yields the empty string. -/
theorem claim8_identity_extraction_witness :
    buildKey ⟨some ⟨some "uid-1"⟩⟩ = "uid-1" ∧ buildKey ⟨none⟩ = "" :=
  ⟨(claim8_identity_extraction ⟨some ⟨some "uid-1"⟩⟩).2 "uid-1" rfl,
   (claim8_identity_extraction ⟨none⟩).1 rfl⟩

/-- C9: on every reachable container state, the traversal yields as many
records as the container has entries, the keys are pairwise distinct (so
each identity contributes exactly one yielded record), and the record
stored under any key is among the yielded ones.  The model's traversal is
a pure list: it is finite and every call restarts it from the beginning. -/
theorem claim9_iterate_all_snapshot (ops : List MemOp) :
    (runOps ops).iter_all_memories.length = (runOps ops).items.length
    ∧ NodupKeys (runOps ops).items
    ∧ ∀ k r, lookupA k (runOps ops).items = some r →
        r ∈ (runOps ops).iter_all_memories := by
  refine ⟨by simp [ResourceMemories.iter_all_memories], nodupKeys_runOps ops, ?_⟩
  intro k r h
  exact mem_snd_of_lookupA h

/-- C9 witness: after one recall, the created record is yielded by the
traversal. -/
theorem claim9_iterate_all_witness :
    freshMemory false 0 ∈
      (runOps [MemOp.recallOp ⟨some ⟨some "u1"⟩⟩ false 0]).iter_all_memories :=
  (claim9_iterate_all_snapshot [MemOp.recallOp ⟨some ⟨some "u1"⟩⟩ false 0]).2.2
    "u1" (freshMemory false 0) (by decide)

/-- C6 counterexample: on the empty user-data mapping and the missing key
"x", subscript access fails with a KeyError while attribute access fails
with an AttributeError — the two surfaces do not raise the same kind of
failure, contrary to the claim. -/
theorem claim6_counterexample :
    failureKind ((⟨[]⟩ : Memo Nat).getItem "x")
      ≠ failureKind ((⟨[]⟩ : Memo Nat).getAttr "x") := by
  decide

/-- C6 (amended): for every key absent from the user-data mapping, both
access surfaces fail — subscript access raises KeyError for the key,
while attribute access raises AttributeError derived from that same
KeyError. -/
theorem claim6_missing_key_both_fail {α : Type} (m : Memo α) (k : String)
    (h : lookupA k m.entries = none) :
    m.getItem k = .error (.keyError k)
    ∧ m.getAttr k = .error (.attributeError k) := by
  constructor
  · simp [Memo.getItem, h]
  · simp [Memo.getAttr, Memo.getItem, h]

/-- C6 witness: both failures observed on the empty mapping at key "x". -/
theorem claim6_missing_key_witness :
    (⟨[]⟩ : Memo Nat).getItem "x" = .error (.keyError "x")
    ∧ (⟨[]⟩ : Memo Nat).getAttr "x" = .error (.attributeError "x") :=
  claim6_missing_key_both_fail (⟨[]⟩ : Memo Nat) "x" rfl

/-- C7: attribute writes are readable through subscripting and vice versa,
and a delete through either surface removes the key from both — the two
surfaces address one and the same backing storage. -/
theorem claim7_dual_access_one_storage {α : Type} (m : Memo α) (k : String) (v : α)
    (hwf : NodupKeys m.entries) :
    (m.setAttr k v).getItem k = .ok v
    ∧ (m.setItem k v).getAttr k = .ok v
    ∧ (∀ m', m.delItem k = .ok m' →
        m'.getItem k = .error (.keyError k) ∧ m'.getAttr k = .error (.attributeError k))
    ∧ ∀ m', m.delAttr k = .ok m' →
        m'.getItem k = .error (.keyError k) ∧ m'.getAttr k = .error (.attributeError k) := by
  have hget : ∀ m' : Memo α, lookupA k m'.entries = none →
      m'.getItem k = .error (.keyError k) ∧ m'.getAttr k = .error (.attributeError k) := by
    intro m' h
    exact ⟨by simp [Memo.getItem, h], by simp [Memo.getAttr, Memo.getItem, h]⟩
  have hdel : ∀ m' : Memo α, m.delItem k = .ok m' →
      m'.getItem k = .error (.keyError k) ∧ m'.getAttr k = .error (.attributeError k) := by
    intro m' h
    cases hl : lookupA k m.entries with
    | none => simp [Memo.delItem, hl] at h
    | some w =>
      simp [Memo.delItem, hl] at h
      rw [← h]
      exact hget _ (lookupA_removeA_self k hwf)
  refine ⟨?_, ?_, hdel, ?_⟩
  · simp [Memo.setAttr, Memo.setItem, Memo.getItem, lookupA_insertA_self]
  · simp [Memo.setItem, Memo.getAttr, Memo.getItem, lookupA_insertA_self]
  · intro m' h
    apply hdel
    cases hd : m.delItem k with
    | ok m'' =>
      simp [Memo.delAttr, hd] at h
      exact congrArg Except.ok h
    | error e =>
      cases e with
      | keyError key => simp [Memo.delAttr, hd] at h
      | attributeError msg => simp [Memo.delAttr, hd] at h

/-- C7 witness: on a one-entry mapping, a value set via the attribute
surface is read back via subscripting. -/
theorem claim7_dual_access_witness :
    ((⟨[("x", (1 : Nat))]⟩ : Memo Nat).setAttr "y" 2).getItem "y" = .ok 2 :=
  (claim7_dual_access_one_storage (⟨[("x", 1)]⟩ : Memo Nat) "y" 2 (by simp [NodupKeys, keysOf])).1

/-- C2: whenever forceful cancellation was issued on a prior pass and the
elapsed time since cancellation exceeds the configured cancellation
timeout while the background task is still alive, the pass performs no
wait, logs the abandonment warning exactly once naming the daemon
identifier, and emits the finalizer-removal patch although the task is
still running. -/
theorem claim2_abandonment_no_wait (st : TermState) (d : Daemon) (t now : Nat)
    (hd : st.daemon = some d)
    (halive : d.taskDone = false)
    (hcanc : d.stopper.cancelIssued = true)
    (htimeout : d.handler.cancellation_timeout = some t)
    (hover : t < sinceCancellation d now) :
    (driveTermination st now).2
      = ⟨[], 0, [orphanedWarning d.handler.id], some PatchK.finalizerRemoval⟩ := by
  obtain ⟨od, fs⟩ := st
  subst hd
  obtain ⟨td, ⟨hid, cb, ct⟩, ⟨sa, ci⟩⟩ := d
  have h1 : td = false := halive
  have h2 : ci = true := hcanc
  have h3 : ct = some t := htimeout
  subst h1; subst h2; subst h3
  simp only [sinceCancellation] at hover
  simp [driveTermination, stopDaemonStep, sinceCancellation, hover]

/-- C2 witness: a daemon cancelled at time 0 with timeout 10, examined at
time 50 with the task still alive, is abandoned with one warning, no
wait, and the finalizer-removal patch. -/
theorem claim2_abandonment_witness :
    (driveTermination ⟨some ⟨false, ⟨"fn", none, some 10⟩, ⟨some 0, true⟩⟩, []⟩ 50).2
      = ⟨[], 0, [orphanedWarning "fn"], some PatchK.finalizerRemoval⟩ :=
  claim2_abandonment_no_wait _ _ 10 50 rfl rfl rfl rfl (by decide)

/-- C3: a daemon configured with cancellation backoff 5 and cancellation
timeout 10: the first pass after deletion waits up to 5 seconds and emits
a status patch (no finalizer change, no cancellation); any pass after the
backoff has elapsed issues forceful cancellation once and waits up to 10
seconds with another status patch; and once the task has actually exited,
the next pass emits exactly one finalizer-removal patch with no wait. -/
theorem claim3_backoff_cancellation_sequence (daemonId : String) (t0 t1 t2 : Nat)
    (h1 : t0 + 5 ≤ t1) :
    threePass daemonId t0 t1 t2
      = (⟨[some 5], 0, [], some PatchK.statusStopping⟩,
         ⟨[some 10], 1, [], some PatchK.statusStopping⟩,
         ⟨[], 0, [], some PatchK.finalizerRemoval⟩) := by
  have hnb : ¬ (t1 - t0 < 5) := by omega
  simp [threePass, driveTermination, stopDaemonStep, markTaskDone, hnb]

/-- C3 witness: the sequence at the test's concrete instants 0, 5 and 6. -/
theorem claim3_backoff_cancellation_witness :
    threePass "fn" 0 5 6
      = (⟨[some 5], 0, [], some PatchK.statusStopping⟩,
         ⟨[some 10], 1, [], some PatchK.statusStopping⟩,
         ⟨[], 0, [], some PatchK.finalizerRemoval⟩) :=
  claim3_backoff_cancellation_sequence "fn" 0 5 6 (by decide)

/-- C4 counterexample: a daemon with backoff 5 and timeout 10, signalled at
time 0 and first re-examined only at time 16 — past backoff plus
timeout.  That pass issues cancellation, waits and emits a status patch;
the immediate re-invocation with the same elapsed time and the same
still-alive task abandons the daemon and emits the finalizer-removal
patch instead.  The two invocations do not produce the same decision,
refuting the claim as stated. -/
theorem claim4_counterexample :
    (driveTermination
        (driveTermination ⟨some ⟨false, ⟨"fn", some 5, some 10⟩, ⟨some 0, false⟩⟩, []⟩ 16).1
        16).2.patch
      ≠ (driveTermination ⟨some ⟨false, ⟨"fn", some 5, some 10⟩, ⟨some 0, false⟩⟩, []⟩ 16).2.patch := by
  decide

/-- C4 (amended): re-invoking the protocol with identical elapsed time and
task state never issues forceful cancellation a second time and never
emits the abandonment warning a second time; and the re-invocation
reaches the same decision — same patch instruction and same waits — in
every state except the one the counterexample exhibits: a first
invocation that itself newly issues cancellation when the abandonment
deadline has already passed (the retry then abandons instead of waiting
again). -/
theorem claim4_reinvocation_idempotence (st : TermState) (now : Nat) :
    (reinvoke st now).1.cancels + (reinvoke st now).2.cancels ≤ 1
    ∧ ((reinvoke st now).1.warnings ++ (reinvoke st now).2.warnings).length ≤ 1
    ∧ ((∀ d, st.daemon = some d →
          d.taskDone = true ∨ d.stopper.cancelIssued = true ∨ overdue d now = false) →
        (reinvoke st now).2.patch = (reinvoke st now).1.patch
        ∧ (reinvoke st now).2.waits = (reinvoke st now).1.waits) := by
  obtain ⟨od, fs⟩ := st
  cases od with
  | none => simp [reinvoke, driveTermination]
  | some d =>
    obtain ⟨td, ⟨hid, cb, ct⟩, ⟨sa, ci⟩⟩ := d
    cases td with
    | true => simp [reinvoke, driveTermination, stopDaemonStep]
    | false =>
      cases ci with
      | true =>
        cases ct with
        | none => simp [reinvoke, driveTermination, stopDaemonStep]
        | some t =>
          by_cases hov : t < now - sa.getD now - cb.getD 0
          · simp [reinvoke, driveTermination, stopDaemonStep, sinceCancellation,
              overdue, hov]
          · simp [reinvoke, driveTermination, stopDaemonStep, sinceCancellation,
              overdue, hov]
      | false =>
        cases cb with
        | none =>
          cases ct with
          | none => simp [reinvoke, driveTermination, stopDaemonStep]
          | some t =>
            by_cases hov : t < now - sa.getD now
            · simp [reinvoke, driveTermination, stopDaemonStep, sinceCancellation,
                overdue, hov]
            · simp [reinvoke, driveTermination, stopDaemonStep, sinceCancellation,
                overdue, hov]
        | some b =>
          by_cases hel : now - sa.getD now < b
          · simp [reinvoke, driveTermination, stopDaemonStep, sinceCancellation,
              overdue, hel]
          · cases ct with
            | none =>
              simp [reinvoke, driveTermination, stopDaemonStep, sinceCancellation,
                overdue, hel]
            | some t =>
              by_cases hov : t < now - sa.getD now - b
              · simp [reinvoke, driveTermination, stopDaemonStep, sinceCancellation,
                  overdue, hel, hov]
              · simp [reinvoke, driveTermination, stopDaemonStep, sinceCancellation,
                  overdue, hel, hov]

/-- C4 amended-claim witness: a cancelled daemon within its timeout is
re-examined with the same outcome and no second cancellation or warning. -/
theorem claim4_reinvocation_witness :
    (reinvoke ⟨some ⟨false, ⟨"fn", none, some 10⟩, ⟨some 0, true⟩⟩, []⟩ 3).1.cancels
        + (reinvoke ⟨some ⟨false, ⟨"fn", none, some 10⟩, ⟨some 0, true⟩⟩, []⟩ 3).2.cancels ≤ 1
    ∧ (reinvoke ⟨some ⟨false, ⟨"fn", none, some 10⟩, ⟨some 0, true⟩⟩, []⟩ 3).2.patch
        = (reinvoke ⟨some ⟨false, ⟨"fn", none, some 10⟩, ⟨some 0, true⟩⟩, []⟩ 3).1.patch := by
  have h := claim4_reinvocation_idempotence
    ⟨some ⟨false, ⟨"fn", none, some 10⟩, ⟨some 0, true⟩⟩, []⟩ 3
  exact ⟨h.1, (h.2.2 (by intro d hd; cases hd; simp)).1⟩

end Kopf
